import Mathlib

/- A shallow embedding of the resume-tailoring core of `resume_generator.py`:
   job-description analysis, relevance scoring, ranking, and page-constraint
   optimization, together with proofs of the specification's properties.
   Machine mutation is made explicit: the two entry points that the source
   implements by mutating Python dicts are embedded as functions returning a
   pair `(returned value, value of the caller's argument after the call)`. -/

/-- Models the char-list test that `needle` is a leading segment of `hay`. -/
def charsStartWith : List Char → List Char → Bool
  | [], _ => true
  | _ :: _, [] => false
  | a :: as, b :: bs => a == b && charsStartWith as bs

/-- Models Python `needle in hay` on char lists (contiguous substring test). -/
def containsSub (hay needle : List Char) : Bool :=
  match hay with
  | [] => needle.isEmpty
  | _ :: t => charsStartWith needle hay || containsSub t needle

/-- Models Python `needle in hay` for strings. -/
def pyIn (needle hay : String) : Bool := containsSub hay.data needle.data

/-- Models Python `str.lower()` (ASCII model). -/
def lowerStr (s : String) : String := String.mk (s.data.map Char.toLower)

/-- Models Python character slicing `s[:n]`. -/
def takeStr (s : String) (n : Nat) : String := String.mk (s.data.take n)

/-- Models Python `str.isalnum()`: nonempty and every character alphanumeric. -/
def pyIsAlnum (s : String) : Bool := !s.data.isEmpty && s.data.all Char.isAlphanum

/-- Helper for `pySplit`: accumulates the current (reversed) word. -/
def pySplitAux (acc : List Char) : List Char → List String
  | [] => if acc.isEmpty then [] else [String.mk acc.reverse]
  | c :: cs =>
    if c.isWhitespace then
      if acc.isEmpty then pySplitAux [] cs
      else String.mk acc.reverse :: pySplitAux [] cs
    else pySplitAux (c :: acc) cs

/-- The tokenizer used by `analyze_job_description` and
`calculate_relevance_score`: lower-case the text and split on whitespace.
This is the source's documented fallback path (`text.lower().split()`); the
primary NLTK `word_tokenize` is an external resource outside the repository,
and both paths feed the same alphanumeric/stopword filter. -/
def tokenize (s : String) : List String := pySplitAux [] (s.data.map Char.toLower)

/-- Stable descending insertion: place `x` before the first element whose key
is `≤ key x`, so earlier elements win ties.  Together with `sortDescBy` this
realizes the semantics of Python's stable `sort(key=..., reverse=True)` /
`sorted(..., reverse=True)`, which keeps equal-keyed elements in their
original relative order. -/
def insertDescBy (key : α → Nat) (x : α) : List α → List α
  | [] => [x]
  | y :: ys => if key y ≤ key x then x :: y :: ys else y :: insertDescBy key x ys

/-- Stable sort by descending `key`; see `insertDescBy`. -/
def sortDescBy (key : α → Nat) : List α → List α
  | [] => []
  | x :: xs => insertDescBy key x (sortDescBy key xs)

theorem insertDescBy_perm (key : α → Nat) (x : α) (l : List α) :
    List.Perm (insertDescBy key x l) (x :: l) := by
  induction l with
  | nil => simp [insertDescBy]
  | cons y ys ih =>
    by_cases h : key y ≤ key x
    · simp [insertDescBy, h]
    · simp only [insertDescBy, h, if_false]
      exact (ih.cons y).trans (List.Perm.swap x y ys)

theorem sortDescBy_perm (key : α → Nat) (l : List α) : List.Perm (sortDescBy key l) l := by
  induction l with
  | nil => simp [sortDescBy]
  | cons x xs ih =>
    exact (insertDescBy_perm key x (sortDescBy key xs)).trans (ih.cons x)

theorem mem_sortDescBy (key : α → Nat) {l : List α} {a : α} :
    a ∈ sortDescBy key l ↔ a ∈ l :=
  (sortDescBy_perm key l).mem_iff

theorem insertDescBy_pairwise (key : α → Nat) (x : α) {l : List α}
    (h : l.Pairwise (fun a b => key b ≤ key a)) :
    (insertDescBy key x l).Pairwise (fun a b => key b ≤ key a) := by
  induction l with
  | nil => simp [insertDescBy]
  | cons y ys ih =>
    rcases List.pairwise_cons.mp h with ⟨hy, hys⟩
    by_cases hxy : key y ≤ key x
    · simp only [insertDescBy, hxy, if_true]
      refine List.pairwise_cons.mpr ⟨?_, h⟩
      intro z hz
      rcases List.mem_cons.mp hz with rfl | hz
      · exact hxy
      · exact le_trans (hy z hz) hxy
    · simp only [insertDescBy, hxy, if_false]
      refine List.pairwise_cons.mpr ⟨?_, ih hys⟩
      intro z hz
      rcases List.mem_cons.mp ((insertDescBy_perm key x ys).mem_iff.mp hz) with rfl | hz
      · omega
      · exact hy z hz

theorem sortDescBy_pairwise (key : α → Nat) (l : List α) :
    (sortDescBy key l).Pairwise (fun a b => key b ≤ key a) := by
  induction l with
  | nil => simp [sortDescBy]
  | cons x xs ih => exact insertDescBy_pairwise key x ih

theorem insertDescBy_filter (key : α → Nat) (x : α) (l : List α) (c : Nat) :
    (insertDescBy key x l).filter (fun y => key y == c) =
      if key x == c then x :: l.filter (fun y => key y == c)
      else l.filter (fun y => key y == c) := by
  induction l with
  | nil =>
    by_cases hx : key x = c <;> simp [insertDescBy, List.filter_cons, hx]
  | cons y ys ih =>
    by_cases hxy : key y ≤ key x
    · simp [insertDescBy, hxy, List.filter_cons]
    · simp only [insertDescBy, hxy, if_false, List.filter_cons]
      by_cases hyc : key y == c
      · have hxc : ¬ (key x == c) := by
          simp only [beq_iff_eq] at hyc ⊢
          omega
        simp [hyc, hxc, ih]
      · simp [hyc, ih]

theorem sortDescBy_filter (key : α → Nat) (l : List α) (c : Nat) :
    (sortDescBy key l).filter (fun y => key y == c) =
      l.filter (fun y => key y == c) := by
  induction l with
  | nil => simp [sortDescBy]
  | cons x xs ih =>
    rw [sortDescBy, insertDescBy_filter, ih, List.filter_cons]

theorem insertDescBy_map (key : α → Nat) (f : β → α) (x : β) (l : List β) :
    insertDescBy key (f x) (l.map f) =
      (insertDescBy (fun b => key (f b)) x l).map f := by
  induction l with
  | nil => simp [insertDescBy]
  | cons y ys ih =>
    by_cases h : key (f y) ≤ key (f x)
    · simp [insertDescBy, h]
    · simp [insertDescBy, h, ih]

theorem sortDescBy_map (key : α → Nat) (f : β → α) (l : List β) :
    sortDescBy key (l.map f) = (sortDescBy (fun b => key (f b)) l).map f := by
  induction l with
  | nil => simp [sortDescBy]
  | cons x xs ih => rw [List.map_cons, sortDescBy, ih, sortDescBy, insertDescBy_map]

/-- Strips the literal `lit` from the front of `s`, returning the remainder. -/
def stripLit : List Char → List Char → Option (List Char)
  | [], s => some s
  | _ :: _, [] => none
  | a :: as, b :: bs => if a == b then stripLit as bs else none

/-- Consumes one optional literal character (a greedy `c?` regex item with no
required atom after it), returning the consumed characters and the rest. -/
def optChar (c : Char) : List Char → (List Char × List Char)
  | [] => ([], [])
  | b :: bs => if b == c then ([c], bs) else ([], b :: bs)

/-- Attempts `EXP_PATTERN`, the compiled regex
`(\d+)[\+]?\s+years?\s+(?:of\s+)?experience`, at the head of `s`.  The source
compiles it without `re.IGNORECASE` and runs it on the raw job text, so
matching is case-sensitive.  Returns the captured digit group and the
remainder after the match.  Greedy `\d+`/`s?`/`(?:of\s+)?` never need
backtracking here: after giving back a digit the next atom would have to
match a digit, after an unconsumed `s` the next atom would have to match
`s` as whitespace, and when `of` is consumed without trailing whitespace the
empty alternative would have to match `experience` starting at `o` — all
impossible, so the one-pass reading below is exact. -/
def matchExpAt (s : List Char) : Option (String × List Char) :=
  let ds := s.takeWhile Char.isDigit
  let r1 := s.dropWhile Char.isDigit
  if ds.isEmpty then none else
  let r2 := match r1 with
    | '+' :: t => t
    | _ => r1
  let ws1 := r2.takeWhile Char.isWhitespace
  let r3 := r2.dropWhile Char.isWhitespace
  if ws1.isEmpty then none else
  match stripLit ['y', 'e', 'a', 'r'] r3 with
  | none => none
  | some r4 =>
    let r5 := match r4 with
      | 's' :: t => t
      | _ => r4
    let ws2 := r5.takeWhile Char.isWhitespace
    let r6 := r5.dropWhile Char.isWhitespace
    if ws2.isEmpty then none else
    let r7 := match r6 with
      | 'o' :: 'f' :: t =>
        let ws3 := t.takeWhile Char.isWhitespace
        if ws3.isEmpty then r6 else t.dropWhile Char.isWhitespace
      | _ => r6
    match stripLit "experience".data r7 with
    | none => none
    | some r8 => some (String.mk ds, r8)

/-- `EXP_PATTERN.findall`: scan left to right, collect each match's digit
group, and resume after the end of every match (non-overlapping matches).
The `Nat` argument is the number of characters of the current match still to
be skipped. -/
def expScanAux : Nat → List Char → List String
  | _, [] => []
  | Nat.succ n, _ :: rest => expScanAux n rest
  | 0, c :: rest =>
    match matchExpAt (c :: rest) with
    | some (g, r) => g :: expScanAux (rest.length - r.length) rest
    | none => expScanAux 0 rest

/-- `EXP_PATTERN.findall(job_description)`: every captured digit group, in
order of appearance.  Applied to the raw (unlowered) job text, as in
`analyze_job_description`. -/
def expFindAll (s : String) : List String := expScanAux 0 s.data

/-- One alternative `lit'?s?` of `EDUCATION_PATTERN` (e.g. `bachelor'?s?`):
the literal, then a greedy optional apostrophe, then a greedy optional `s`. -/
def eduDeg (lit : List Char) (s : List Char) : Option (List Char) :=
  match stripLit lit s with
  | none => none
  | some r =>
    let p1 := optChar '\'' r
    let p2 := optChar 's' p1.2
    some (lit ++ p1.1 ++ p2.1)

/-- One alternative `c1\.?c2\.?` of `EDUCATION_PATTERN` (e.g. `b\.?s\.?`).
The optional dot before the required second letter only succeeds when that
letter follows it, exactly as regex backtracking would resolve it. -/
def eduAbbr (c1 c2 : Char) : List Char → Option (List Char)
  | [] => none
  | b :: rest =>
    if b == c1 then
      match rest with
      | '.' :: c :: t =>
        if c == c2 then some ([c1, '.', c2] ++ (optChar '.' t).1)
        else none
      | c :: t => if c == c2 then some ([c1, c2] ++ (optChar '.' t).1) else none
      | [] => none
    else none

/-- Attempts `EDUCATION_PATTERN`
(`bachelor'?s?|master'?s?|phd|doctorate|b\.?s\.?|m\.?s\.?|b\.?a\.?|m\.?a\.?`)
at the head of `s`, trying the alternatives in their written order as
Python's `re` does, and returning the full matched text. -/
def eduMatchAt (s : List Char) : Option (List Char) :=
  (eduDeg "bachelor".data s).orElse fun _ =>
  (eduDeg "master".data s).orElse fun _ =>
  ((stripLit "phd".data s).map fun _ => "phd".data).orElse fun _ =>
  ((stripLit "doctorate".data s).map fun _ => "doctorate".data).orElse fun _ =>
  (eduAbbr 'b' 's' s).orElse fun _ =>
  (eduAbbr 'm' 's' s).orElse fun _ =>
  (eduAbbr 'b' 'a' s).orElse fun _ =>
  eduAbbr 'm' 'a' s

/-- `EDUCATION_PATTERN.findall`: left-to-right non-overlapping scan. -/
def eduScanAux : Nat → List Char → List String
  | _, [] => []
  | Nat.succ n, _ :: rest => eduScanAux n rest
  | 0, c :: rest =>
    match eduMatchAt (c :: rest) with
    | some m => String.mk m :: eduScanAux (m.length - 1) rest
    | none => eduScanAux 0 rest

/-- `EDUCATION_PATTERN.findall(job_description.lower())`: every matched degree
token, in order of appearance, not deduplicated. -/
def eduFindAll (s : String) : List String := eduScanAux 0 s.data

/-- First alternative of a flat alternation that matches at the head of `s`.
Python's `re` alternation is ordered: the earliest alternative that matches
wins (so inside `javascript` the alternative `java`, listed first, is the
one found). -/
def firstAlt (alts : List String) (s : List Char) : Option String :=
  match alts with
  | [] => none
  | a :: as =>
    match stripLit a.data s with
    | some _ => some a
    | none => firstAlt as s

/-- `re.findall` for one flat alternation of literal terms: left-to-right
scan, ordered alternatives, resuming after each match. -/
def scanAltsAux (alts : List String) : Nat → List Char → List String
  | _, [] => []
  | Nat.succ n, _ :: rest => scanAltsAux alts n rest
  | 0, c :: rest =>
    match firstAlt alts (c :: rest) with
    | some a => a :: scanAltsAux alts (a.length - 1) rest
    | none => scanAltsAux alts 0 rest

/-- The five `SKILL_PATTERNS` alternations, with their alternatives in
source order (each pattern is a flat alternation of literal terms; `c\+\+`
and `ci/cd` unescape to the literals below). -/
def SKILL_PATTERNS : List (List String) :=
  [ ["python", "java", "javascript", "js", "html", "css", "c++", "ruby", "php",
     "swift", "kotlin", "go", "rust", "scala", "sql"],
    ["react", "angular", "vue", "node", "express", "django", "flask", "spring",
     "laravel", "rails"],
    ["aws", "azure", "gcp", "docker", "kubernetes", "terraform", "jenkins",
     "ci/cd"],
    ["machine learning", "ml", "ai", "data science", "nlp", "computer vision"],
    ["agile", "scrum", "kanban", "waterfall", "leadership", "communication"] ]

/-- First-occurrence deduplication with an accumulator of already-seen
words; models both insertion into a Python `set` (membership) and, for the
`Counter`, the first-encounter ordering of its keys. -/
def dedupAux (seen : List String) : List String → List String
  | [] => []
  | x :: xs =>
    if seen.contains x then dedupAux seen xs
    else x :: dedupAux (x :: seen) xs

/-- Skill extraction: run each `SKILL_PATTERNS` alternation over the
lower-cased job text with `re.findall` and union the matches into a set.
The source returns `list(skills)` whose iteration order is unspecified; the
embedding fixes first-match order, and nothing downstream reads more than
membership of this deduplicated list. -/
def extractSkills (jd : String) : List String :=
  dedupAux [] (SKILL_PATTERNS.flatMap fun alts => scanAltsAux alts 0 (lowerStr jd).data)

/-- Filtering applied to the tokens of the job description:
`[w for w in tokens if w.isalnum() and w not in self.stop_words]`.  The
stopword set (NLTK English stopwords, external data loaded once at startup)
is passed explicitly, as the spec directs for the fixed vocabulary tables. -/
def filteredTokens (stop : List String) (tokens : List String) : List String :=
  tokens.filter fun w => pyIsAlnum w && !(stop.contains w)

/-- `Counter(filtered_tokens).most_common 15`: pair each distinct token (in
first-encounter order, which is `Counter`'s insertion order) with its
occurrence count, stably sort by descending count (`heapq.nlargest` is
documented as `sorted(..., reverse=True)[:n]`, which breaks ties by the
iteration order of the counter), and keep the first 15. -/
def mostCommon (n : Nat) (tokens : List String) : List (String × Nat) :=
  (sortDescBy (fun p => p.2)
    ((dedupAux [] tokens).map fun w => (w, tokens.count w))).take n

/-- The `frequent_words` field of `analyze_job_description`. -/
def frequentWords (stop : List String) (tokens : List String) : List (String × Nat) :=
  mostCommon 15 (filteredTokens stop tokens)

/-- The record returned by `analyze_job_description`. -/
structure JobAnalysis where
  frequent_words : List (String × Nat)
  skills : List String
  experience : List String
  education : List String
deriving Repr, DecidableEq

/-- `analyze_job_description(job_description)`: word frequencies over the
filtered lower-cased tokens, skills from the vocabulary alternations over the
lower-cased text, experience requirements from `EXP_PATTERN` over the RAW
text (the pattern is compiled without `re.IGNORECASE`), and education
requirements from `EDUCATION_PATTERN` over the lower-cased text. -/
def analyze_job_description (stop : List String) (jd : String) : JobAnalysis :=
  { frequent_words := frequentWords stop (tokenize jd)
    skills := extractSkills jd
    experience := expFindAll jd
    education := eduFindAll (lowerStr jd) }

/-- The fields of a resume item that `calculate_relevance_score` reads
(`keywords`, `highlights`, `summary`); an absent optional field is an absent
dict key. -/
structure Item where
  keywords : Option (List String)
  highlights : Option (List String)
  summary : Option String
deriving Repr, DecidableEq

/-- The item's keyword bag: the explicit `keywords` list as given, plus every
alphanumeric token of each highlight and of the summary (tokenized with the
same lower-casing fallback tokenizer). -/
def itemKeywords (item : Item) : List String :=
  item.keywords.getD []
    ++ (item.highlights.getD []).flatMap (fun h => (tokenize h).filter pyIsAlnum)
    ++ (match item.summary with
        | some s => (tokenize s).filter pyIsAlnum
        | none => [])

/-- `calculate_relevance_score(item, required_skills)`: one point per required
skill for which some keyword in the bag satisfies `skill in keyword.lower()`.
Only the keyword is lower-cased; the skill is compared as given. -/
def calculate_relevance_score (item : Item) (required_skills : List String) : Nat :=
  required_skills.countP fun skill =>
    (itemKeywords item).any fun kw => pyIn skill (lowerStr kw)

/-- Modelled from the spec's words (§4.2): the per-skill test of the claim,
with the containment read case-insensitively on both sides — the skill and
the keyword are both lower-cased before the substring check.  Kept beside
`calculate_relevance_score` (translated from the source) to compare the two. -/
def ciScore (item : Item) (required_skills : List String) : Nat :=
  required_skills.countP fun skill =>
    (itemKeywords item).any fun kw => pyIn (lowerStr skill) (lowerStr kw)

/-- A `work[]` entry.  Fields the core never reads or writes (dates, website)
are omitted; `relevance_score` models presence of the transient dict key of
the same name (`none` = key absent). -/
structure WorkItem where
  company : Option String
  position : Option String
  summary : Option String
  highlights : Option (List String)
  keywords : Option (List String)
  relevance_score : Option Nat
deriving Repr, DecidableEq

def WorkItem.toItem (w : WorkItem) : Item :=
  { keywords := w.keywords, highlights := w.highlights, summary := w.summary }

/-- A `projects[]` entry; `relevance_score` and `_relevance` model the two
transient dict keys (`none` = key absent). -/
structure Project where
  name : Option String
  description : Option String
  summary : Option String
  highlights : Option (List String)
  keywords : Option (List String)
  url : Option String
  relevance_score : Option Nat
  _relevance : Option Nat
deriving Repr, DecidableEq

def Project.toItem (p : Project) : Item :=
  { keywords := p.keywords, highlights := p.highlights, summary := p.summary }

/-- A `skills[]` entry: `name` is a required key in the source
(`skill["name"]`), the rest optional. -/
structure SkillEntry where
  name : String
  level : Option String
  keywords : Option (List String)
  relevance_score : Option Nat
deriving Repr, DecidableEq

/-- The `basics` section; only `name` and `summary` are modelled — the core
reads and writes no other `basics` field. -/
structure Basics where
  name : Option String
  summary : Option String
deriving Repr, DecidableEq

/-- A `ResumeDocument`.  The sections the core never touches (`education`,
`certifications`) are omitted; each remaining section is optional, modelling
presence of its dict key. -/
structure Resume where
  basics : Option Basics
  work : Option (List WorkItem)
  projects : Option (List Project)
  skills : Option (List SkillEntry)
  job_analysis : Option JobAnalysis
deriving Repr, DecidableEq

/-- Scoring of a `skills[]` entry inside `generate_tailored_resume`: one
point per required skill contained in the lower-cased `name` or in some
lower-cased keyword of the entry. -/
def skillScore (req : List String) (sk : SkillEntry) : Nat :=
  req.countP fun r =>
    pyIn r (lowerStr sk.name) || (sk.keywords.getD []).any fun kw => pyIn r (lowerStr kw)

/-- The `work` branch of `generate_tailored_resume`: write each item's score
into its `relevance_score` key, sort the list in place by that key,
descending and stable, then pop the key from every item. -/
def rankWork (req : List String) (l : List WorkItem) : List WorkItem :=
  (sortDescBy (fun w => w.relevance_score.getD 0)
      (l.map fun w =>
        { w with relevance_score := some (calculate_relevance_score w.toItem req) })).map
    fun w => { w with relevance_score := none }

/-- The `projects` branch of `generate_tailored_resume`; same score-sort-pop
shape as `rankWork`. -/
def rankProjects (req : List String) (l : List Project) : List Project :=
  (sortDescBy (fun p => p.relevance_score.getD 0)
      (l.map fun p =>
        { p with relevance_score := some (calculate_relevance_score p.toItem req) })).map
    fun p => { p with relevance_score := none }

/-- The `skills` branch of `generate_tailored_resume`; scored by
`skillScore`, same score-sort-pop shape. -/
def rankSkills (req : List String) (l : List SkillEntry) : List SkillEntry :=
  (sortDescBy (fun sk => sk.relevance_score.getD 0)
      (l.map fun sk => { sk with relevance_score := some (skillScore req sk) })).map
    fun sk => { sk with relevance_score := none }

/-- `generate_tailored_resume(job_description)`.  The first component is the
returned tailored resume.  The second is the value of the caller's
`self.resume_data` after the call: the source takes only a top-level
`dict.copy()`, so the nested `work`/`projects`/`skills` LIST OBJECTS are
shared with the original — their in-place sort (and the transient key
writes/pops on the shared item dicts) are visible through the caller's
document, while `job_analysis` is written only on the new top-level dict. -/
def generate_tailored_resume (stop : List String) (resume : Resume) (jd : String) :
    Resume × Resume :=
  let job_analysis := analyze_job_description stop jd
  let required_skills := job_analysis.skills
  let work' := resume.work.map (rankWork required_skills)
  let projects' := resume.projects.map (rankProjects required_skills)
  let skills' := resume.skills.map (rankSkills required_skills)
  ({ resume with
      work := work', projects := projects', skills := skills',
      job_analysis := some job_analysis },
   { resume with work := work', projects := projects', skills := skills' })

/-- Step 1 of `optimize_for_page_constraints`: total content size in
characters — `basics.summary`, plus each work entry's `summary` and
highlights, plus each project's `description` and highlights (a missing key
contributes `len(str("")) = 0`). -/
def contentSize (r : Resume) : Nat :=
  (match r.basics with
   | some b => (b.summary.getD "").length
   | none => 0)
  + ((r.work.getD []).map fun w =>
      (w.summary.getD "").length + ((w.highlights.getD []).map String.length).sum).sum
  + ((r.projects.getD []).map fun p =>
      (p.description.getD "").length + ((p.highlights.getD []).map String.length).sum).sum

/-- Step 2 of `optimize_for_page_constraints`: the strict thresholds
selecting `(summary_limit, highlight_limit, project_limit)`. -/
def tierLimits (size : Nat) : Nat × Nat × Nat :=
  if size > 3500 then (100, 2, 2)
  else if size > 3000 then (150, 3, 3)
  else (200, 4, 4)

/-- Summary truncation: `if basics.get("summary") and len(...) > limit`
(a present, non-empty summary longer than the limit) replace it with its
first `limit - 3` characters followed by `"..."`. -/
def trimSummary (limit : Nat) (b : Basics) : Basics :=
  match b.summary with
  | some s =>
    if !s.data.isEmpty && s.length > limit then
      { b with summary := some (takeStr s (limit - 3) ++ "...") }
    else b
  | none => b

/-- Highlight score inside `optimize_for_page_constraints`:
`sum(1 for skill in required_skills if skill.lower() in highlight.lower())`
— here BOTH sides are lower-cased, unlike `calculate_relevance_score`. -/
def hlScore (req : List String) (h : String) : Nat :=
  req.countP fun skill => pyIn (lowerStr skill) (lowerStr h)

/-- Highlight pruning for one work entry: when it has more highlights than
the tier limit, keep the top-`limit` highlights of the stable descending
sort by `hlScore` (the source sorts the `(highlight, score)` pairs by the
score with Python's stable `sorted(..., reverse=True)` and projects the
highlights back out, which is the same list). -/
def pruneHighlights (req : List String) (limit : Nat) (w : WorkItem) : WorkItem :=
  match w.highlights with
  | some hs =>
    if hs.length > limit then
      { w with highlights := some ((sortDescBy (hlScore req) hs).take limit) }
    else w
  | none => w

/-- Approximates Python `str(proj)` — the flattened text of the whole project
record — as the concatenation of its string fields.  The dict punctuation and
key names of the exact `repr` are not modelled; no verified claim depends on
the value of a project score, only on which transient keys survive. -/
def projFlat (p : Project) : String :=
  String.intercalate ", "
    ([p.name.getD "", p.description.getD "", p.summary.getD ""]
      ++ p.highlights.getD [] ++ p.keywords.getD [] ++ [p.url.getD ""])

/-- Project score inside `optimize_for_page_constraints`:
`sum(1 for skill in required_skills if skill.lower() in str(proj).lower())`. -/
def projScore (req : List String) (p : Project) : Nat :=
  req.countP fun skill => pyIn (lowerStr skill) (lowerStr (projFlat p))

/-- Project pruning: when there are more projects than the tier limit, write
each score into the transient `_relevance` key, keep the top-`limit` projects
of the stable descending sort by that key, and pop the key from every KEPT
project (the dropped ones are discarded with the key still set). -/
def pruneProjects (req : List String) (limit : Nat) (ps : List Project) : List Project :=
  if ps.length > limit then
    ((sortDescBy (fun p => p._relevance.getD 0)
        (ps.map fun p => { p with _relevance := some (projScore req p) })).take limit).map
      fun p => { p with _relevance := none }
  else ps

/-- `optimize_for_page_constraints(resume_data, job_description)`.  The first
component is the returned optimized resume; the second is the value of the
caller's `resume_data` after the call.  The source builds `optimized` as
`json.loads(json.dumps(resume_data))` — a deep copy sharing no objects with
the input — and every subsequent write (`basics["summary"] = ...`,
`item["highlights"] = ...`, `proj["_relevance"] = ...`,
`optimized["projects"] = ...`) targets that copy or objects reached from it,
so the caller's document is returned unchanged.  When the `basics` key is
missing, `basics = optimized.get("basics", {})` is a fresh dict and the
summary write is lost, which `Option.map` models exactly.  (The
`job_description` parameter is unused by the source body.) -/
def optimize_for_page_constraints (resume_data : Resume) : Resume × Resume :=
  let optimized := resume_data
  let required_skills := (resume_data.job_analysis.map JobAnalysis.skills).getD []
  let content_size := contentSize optimized
  let limits := tierLimits content_size
  let summary_limit := limits.1
  let highlight_limit := limits.2.1
  let project_limit := limits.2.2
  let basics' := optimized.basics.map (trimSummary summary_limit)
  let work' := optimized.work.map (List.map (pruneHighlights required_skills highlight_limit))
  let projects' := optimized.projects.map (pruneProjects required_skills project_limit)
  ({ optimized with basics := basics', work := work', projects := projects' },
   resume_data)

/-- Fixture: a work entry whose keywords miss the job's skills. -/
def wExcel : WorkItem :=
  { company := some "A", position := none, summary := none,
    highlights := none, keywords := some ["excel"], relevance_score := none }

/-- Fixture: a work entry whose keywords hit the job's skills. -/
def wPython : WorkItem :=
  { company := some "B", position := none, summary := none,
    highlights := none, keywords := some ["python"], relevance_score := none }

/-- Fixture: a resume whose work list is [wExcel, wPython]. -/
def twoItemResume : Resume :=
  { basics := none, work := some [wExcel, wPython], projects := none,
    skills := none, job_analysis := none }

/-- Claim C1 (code bug): `generate_tailored_resume` copies only the top-level
dict, so sorting the shared nested lists in place reorders the caller's
original document.  At the failing input — a resume with work entries
`[wExcel, wPython]` and job description `"python"` — the caller's work list
is `[wPython, wExcel]` after the call, not its original order, so the
original ResumeDocument is NOT left unchanged.  (The other half of the
claim does hold: the popped transient keys leave no score on the items.) -/
theorem c1_shallow_copy_mutates_caller :
    (generate_tailored_resume [] twoItemResume "python").2.work ≠ twoItemResume.work ∧
    (generate_tailored_resume [] twoItemResume "python").2.work = some [wPython, wExcel] ∧
    twoItemResume.work = some [wExcel, wPython] ∧
    wPython.relevance_score = none ∧ wExcel.relevance_score = none := by
  decide

/-- Claim C2, counterexample: `EXP_PATTERN` is compiled without
`re.IGNORECASE` and applied to the raw text, so the capitalized
"5 Years Experience" — which the claim says is captured — yields nothing. -/
theorem c2_exp_not_case_insensitive :
    "5" ∉ (analyze_job_description [] "5 Years Experience").experience ∧
    (analyze_job_description [] "5 Years Experience").experience = [] ∧
    expFindAll "5 Years Experience" = [] := by
  decide

/-- Claim C4: tier selection in `optimize_for_page_constraints` uses strict
thresholds on the computed content size — above 3500 the aggressive limits
(100, 2, 2), above 3000 up to 3500 the moderate limits (150, 3, 3),
otherwise the mild limits (200, 4, 4); in particular 3600, 3200 and 1000
select the aggressive, moderate and mild tiers. -/
theorem c4_tier_selection :
    (∀ size : Nat,
      (size > 3500 → tierLimits size = (100, 2, 2)) ∧
      (3000 < size ∧ size ≤ 3500 → tierLimits size = (150, 3, 3)) ∧
      (size ≤ 3000 → tierLimits size = (200, 4, 4))) ∧
    tierLimits 3600 = (100, 2, 2) ∧ tierLimits 3200 = (150, 3, 3) ∧
    tierLimits 1000 = (200, 4, 4) := by
  refine ⟨fun size => ⟨fun h => ?_, fun h => ?_, fun h => ?_⟩,
    by decide, by decide, by decide⟩
  · simp only [tierLimits, if_pos h]
  · have h1 : ¬ size > 3500 := by omega
    simp only [tierLimits, if_neg h1, if_pos h.1]
  · have h1 : ¬ size > 3500 := by omega
    have h2 : ¬ size > 3000 := by omega
    simp only [tierLimits, if_neg h1, if_neg h2]

/-- Witness for C4: the three guarded branches at concrete sizes. -/
theorem c4_tier_selection_witness :
    tierLimits 4000 = (100, 2, 2) ∧ tierLimits 3100 = (150, 3, 3) ∧
    tierLimits 50 = (200, 4, 4) :=
  ⟨(c4_tier_selection.1 4000).1 (by decide),
   (c4_tier_selection.1 3100).2.1 ⟨by decide, by decide⟩,
   (c4_tier_selection.1 50).2.2 (by decide)⟩

/-- Claim C7: in `optimize_for_page_constraints`, a present summary strictly
longer than the selected tier's summary limit becomes exactly the first
`limit - 3` characters followed by `"..."` — a string of exactly `limit`
characters — and a summary at or under the limit is returned unchanged;
the basics section of the optimizer's output is exactly the input basics
with this truncation applied at the tier limit of the computed size. -/
theorem c7_summary_truncation :
    (∀ r : Resume,
      (optimize_for_page_constraints r).1.basics
        = r.basics.map (trimSummary (tierLimits (contentSize r)).1)) ∧
    ∀ (b : Basics) (limit : Nat) (s : String), 3 ≤ limit → b.summary = some s →
      (s.length > limit →
        (trimSummary limit b).summary = some (takeStr s (limit - 3) ++ "...") ∧
        ((trimSummary limit b).summary.getD "").length = limit) ∧
      (s.length ≤ limit → trimSummary limit b = b) := by
  refine ⟨fun r => rfl, fun b limit s hlim hsum => ⟨fun hgt => ?_, fun hle => ?_⟩⟩
  · have hne : s.data.isEmpty = false := by
      cases hd : s.data with
      | nil =>
        exfalso
        have : s.length = 0 := by simp [String.length, hd]
        omega
      | cons c cs => rfl
    have hc : (!s.data.isEmpty && decide (s.length > limit)) = true := by
      simp [hne, hgt]
    constructor
    · simp only [trimSummary, hsum, hc, if_true]
    · simp only [trimSummary, hsum, hc, if_true, Option.getD_some]
      have h3 : ("..." : String).length = 3 := by decide
      have htake : (takeStr s (limit - 3)).length = limit - 3 := by
        simp only [takeStr, String.length, List.length_take]
        have : s.data.length = s.length := rfl
        omega
      rw [String.length_append, htake, h3]
      omega
  · have hc : (!s.data.isEmpty && decide (s.length > limit)) = false := by
      have : decide (s.length > limit) = false := by
        simp only [decide_eq_false_iff_not]
        omega
      simp [this]
    simp only [trimSummary, hsum, hc]
    simp

/-- Witness for C7: both branches at concrete inputs — a 10-character limit
truncates a 15-character summary to 10 characters ending in "...", and
leaves a 5-character summary unchanged. -/
theorem c7_summary_truncation_witness :
    ((trimSummary 10 { name := none, summary := some "abcdefghijklmno" }).summary
        = some (takeStr "abcdefghijklmno" 7 ++ "...") ∧
      ((trimSummary 10 { name := none, summary := some "abcdefghijklmno" }).summary.getD "").length = 10) ∧
    trimSummary 10 { name := none, summary := some "abcde" }
      = { name := none, summary := some "abcde" } :=
  ⟨(c7_summary_truncation.2 { name := none, summary := some "abcdefghijklmno" } 10
      "abcdefghijklmno" (by decide) rfl).1 (by decide),
   (c7_summary_truncation.2 { name := none, summary := some "abcde" } 10
      "abcde" (by decide) rfl).2 (by decide)⟩

/-- Fixture: a resume whose only content is a 250-character summary, so the
mild tier (limit 200) applies and the summary is actually trimmed. -/
def longResume : Resume :=
  { basics := some { name := none, summary := some (String.mk (List.replicate 250 'a')) },
    work := none, projects := none, skills := none, job_analysis := none }

set_option maxRecDepth 40000 in
/-- Claim C10: `optimize_for_page_constraints` never mutates the resume
passed to it — it works on a deep copy (a JSON serialize/deserialize round
trip), so the value of the caller's document after the call is the value
passed in, even on an input whose output was actually trimmed. -/
theorem c10_optimize_preserves_input :
    (∀ r : Resume, (optimize_for_page_constraints r).2 = r) ∧
    (optimize_for_page_constraints longResume).1.basics ≠ longResume.basics ∧
    (optimize_for_page_constraints longResume).2 = longResume := by
  refine ⟨fun r => rfl, by decide, rfl⟩

/-- Fixture: an item whose only keyword is the upper-case "JAVA". -/
def upperJavaItem : Item :=
  { keywords := some ["JAVA"], highlights := none, summary := none }

/-- Fixture: an item whose only keyword is "javascript". -/
def javascriptItem : Item :=
  { keywords := some ["javascript"], highlights := none, summary := none }

/-- Claim C5, counterexample: the containment test in
`calculate_relevance_score` lower-cases only the keyword, not the skill, so
it is not case-insensitive in the skill: the required skill "Java" against
keyword "JAVA" — a case-insensitive substring match, which the claim counts
as 1 — scores 0 (`ciScore` is the claim's case-insensitive count). -/
theorem c5_not_skill_case_insensitive :
    calculate_relevance_score upperJavaItem ["Java"] = 0 ∧
    ciScore upperJavaItem ["Java"] = 1 ∧
    calculate_relevance_score upperJavaItem ["Java"] ≠ ciScore upperJavaItem ["Java"] := by
  decide

/-- Claim C5 as amended: `calculate_relevance_score` adds exactly 1 per
required skill contained, as given, in some lower-cased keyword of the
item's bag — which agrees with the claim's case-insensitive containment
count whenever the required skills are themselves lower-case (as every
skill produced by `analyze_job_description` is), and with no word-boundary
check: the required skill "java" scores against keyword "javascript". -/
theorem c5_substring_scoring :
    (∀ (item : Item) (req : List String), (∀ s ∈ req, lowerStr s = s) →
      calculate_relevance_score item req = ciScore item req) ∧
    calculate_relevance_score javascriptItem ["java"] = 1 ∧
    ciScore javascriptItem ["java"] = 1 ∧
    (∀ s ∈ extractSkills "We use Java and JavaScript", lowerStr s = s) := by
  refine ⟨fun item req h => ?_, by decide, by decide, by decide⟩
  unfold calculate_relevance_score ciScore
  refine List.countP_congr fun s hs => ?_
  rw [h s hs]

/-- Witness for C5: the lower-case-skills hypothesis discharged on the
concrete analyzer output for a Java/JavaScript job text. -/
theorem c5_substring_scoring_witness :
    calculate_relevance_score javascriptItem (extractSkills "We use Java and JavaScript")
      = ciScore javascriptItem (extractSkills "We use Java and JavaScript") :=
  c5_substring_scoring.1 javascriptItem (extractSkills "We use Java and JavaScript")
    (by decide)

theorem workItemEtaScoreNone (w : WorkItem) (h : w.relevance_score = none) :
    ({ w with relevance_score := none } : WorkItem) = w := by
  cases w
  simp_all

theorem projectEtaScoreNone (p : Project) (h : p.relevance_score = none) :
    ({ p with relevance_score := none } : Project) = p := by
  cases p
  simp_all

theorem skillEntryEtaScoreNone (sk : SkillEntry) (h : sk.relevance_score = none) :
    ({ sk with relevance_score := none } : SkillEntry) = sk := by
  cases sk
  simp_all

/-- On a list of work items carrying no transient score key (every real
document), the store-sort-pop of `rankWork` is the stable descending sort
by the computed relevance score. -/
theorem rankWork_eq (req : List String) (l : List WorkItem)
    (h : ∀ w ∈ l, w.relevance_score = none) :
    rankWork req l
      = sortDescBy (fun w => calculate_relevance_score w.toItem req) l := by
  unfold rankWork
  rw [sortDescBy_map, List.map_map]
  have hkey : (fun b : WorkItem =>
      (({ b with relevance_score := some (calculate_relevance_score b.toItem req) }
        : WorkItem).relevance_score.getD 0))
      = fun b : WorkItem => calculate_relevance_score b.toItem req := rfl
  rw [hkey]
  have hmap : ∀ w ∈ sortDescBy (fun w => calculate_relevance_score w.toItem req) l,
      ((fun w : WorkItem => { w with relevance_score := none }) ∘
        fun w : WorkItem =>
          { w with relevance_score := some (calculate_relevance_score w.toItem req) }) w
        = id w := by
    intro w hw
    exact workItemEtaScoreNone w (h w ((mem_sortDescBy _).mp hw))
  rw [List.map_congr_left hmap, List.map_id]

/-- `rankProjects` analogue of `rankWork_eq`. -/
theorem rankProjects_eq (req : List String) (l : List Project)
    (h : ∀ p ∈ l, p.relevance_score = none) :
    rankProjects req l
      = sortDescBy (fun p => calculate_relevance_score p.toItem req) l := by
  unfold rankProjects
  rw [sortDescBy_map, List.map_map]
  have hkey : (fun b : Project =>
      (({ b with relevance_score := some (calculate_relevance_score b.toItem req) }
        : Project).relevance_score.getD 0))
      = fun b : Project => calculate_relevance_score b.toItem req := rfl
  rw [hkey]
  have hmap : ∀ p ∈ sortDescBy (fun p => calculate_relevance_score p.toItem req) l,
      ((fun p : Project => { p with relevance_score := none }) ∘
        fun p : Project =>
          { p with relevance_score := some (calculate_relevance_score p.toItem req) }) p
        = id p := by
    intro p hp
    exact projectEtaScoreNone p (h p ((mem_sortDescBy _).mp hp))
  rw [List.map_congr_left hmap, List.map_id]

/-- `rankSkills` analogue of `rankWork_eq`, with the skill-section score. -/
theorem rankSkills_eq (req : List String) (l : List SkillEntry)
    (h : ∀ sk ∈ l, sk.relevance_score = none) :
    rankSkills req l = sortDescBy (skillScore req) l := by
  unfold rankSkills
  rw [sortDescBy_map, List.map_map]
  have hkey : (fun b : SkillEntry =>
      (({ b with relevance_score := some (skillScore req b) }
        : SkillEntry).relevance_score.getD 0))
      = fun b : SkillEntry => skillScore req b := rfl
  rw [hkey]
  have hmap : ∀ sk ∈ sortDescBy (skillScore req) l,
      ((fun sk : SkillEntry => { sk with relevance_score := none }) ∘
        fun sk : SkillEntry => { sk with relevance_score := some (skillScore req sk) }) sk
        = id sk := by
    intro sk hsk
    exact skillEntryEtaScoreNone sk (h sk ((mem_sortDescBy _).mp hsk))
  rw [List.map_congr_left hmap, List.map_id]

/-- Claim C3: on documents whose items carry no leftover transient score
key, each of the ranked `work`, `projects` and `skills` lists is a
permutation of the input, ordered by descending relevance score, and the
sort is stable — for every score value the sub-sequence of entries with
that score is exactly the input's, preserving their relative order. -/
theorem c3_ranking_stable_descending (req : List String) :
    (∀ l : List WorkItem, (∀ w ∈ l, w.relevance_score = none) →
      List.Perm (rankWork req l) l ∧
      (rankWork req l).Pairwise (fun a b =>
        calculate_relevance_score b.toItem req ≤ calculate_relevance_score a.toItem req) ∧
      ∀ c, (rankWork req l).filter (fun w => calculate_relevance_score w.toItem req == c)
            = l.filter (fun w => calculate_relevance_score w.toItem req == c)) ∧
    (∀ l : List Project, (∀ p ∈ l, p.relevance_score = none) →
      List.Perm (rankProjects req l) l ∧
      (rankProjects req l).Pairwise (fun a b =>
        calculate_relevance_score b.toItem req ≤ calculate_relevance_score a.toItem req) ∧
      ∀ c, (rankProjects req l).filter (fun p => calculate_relevance_score p.toItem req == c)
            = l.filter (fun p => calculate_relevance_score p.toItem req == c)) ∧
    (∀ l : List SkillEntry, (∀ sk ∈ l, sk.relevance_score = none) →
      List.Perm (rankSkills req l) l ∧
      (rankSkills req l).Pairwise (fun a b => skillScore req b ≤ skillScore req a) ∧
      ∀ c, (rankSkills req l).filter (fun sk => skillScore req sk == c)
            = l.filter (fun sk => skillScore req sk == c)) := by
  refine ⟨fun l h => ?_, fun l h => ?_, fun l h => ?_⟩
  · rw [rankWork_eq req l h]
    exact ⟨sortDescBy_perm _ l, sortDescBy_pairwise _ l, fun c => sortDescBy_filter _ l c⟩
  · rw [rankProjects_eq req l h]
    exact ⟨sortDescBy_perm _ l, sortDescBy_pairwise _ l, fun c => sortDescBy_filter _ l c⟩
  · rw [rankSkills_eq req l h]
    exact ⟨sortDescBy_perm _ l, sortDescBy_pairwise _ l, fun c => sortDescBy_filter _ l c⟩

/-- Witness for C3: the work-list part at a concrete resume and skill set. -/
theorem c3_ranking_stable_descending_witness :
    List.Perm (rankWork ["python"] [wExcel, wPython]) [wExcel, wPython] ∧
    rankWork ["python"] [wExcel, wPython] = [wPython, wExcel] :=
  ⟨((c3_ranking_stable_descending ["python"]).1 [wExcel, wPython] (by decide)).1,
   by decide⟩

theorem filter_take_drop (l : List α) (n : Nat) (p : α → Bool) :
    l.filter p = (l.take n).filter p ++ (l.drop n).filter p := by
  conv_lhs => rw [← List.take_append_drop n l]
  rw [List.filter_append]

theorem mem_dedupAux {x : String} :
    ∀ (seen l : List String), x ∈ dedupAux seen l → x ∈ l := by
  intro seen l
  induction l generalizing seen with
  | nil => intro h; simp [dedupAux] at h
  | cons y ys ih =>
    intro h
    by_cases hy : seen.contains y
    · simp only [dedupAux, hy, if_true] at h
      exact List.mem_cons_of_mem y (ih seen h)
    · simp only [dedupAux, hy, if_false] at h
      rcases List.mem_cons.mp h with rfl | h
      · exact List.mem_cons_self x ys
      · exact List.mem_cons_of_mem y (ih (y :: seen) h)

/-- Claim C6: `frequent_words` has at most 15 entries, is ordered by
descending count with ties in first-encountered order (for every count
value, its entries are a leading segment of the first-encounter-ordered
count table), each entry's count is the number of occurrences of its token
among the filtered tokens, and no stopword and no non-alphanumeric token
appears; `analyze_job_description` produces exactly this list from the
tokenized job text. -/
theorem c6_frequent_words (stop tokens : List String) :
    (frequentWords stop tokens).length ≤ 15 ∧
    (frequentWords stop tokens).Pairwise (fun a b => b.2 ≤ a.2) ∧
    (∀ p ∈ frequentWords stop tokens,
      p.2 = (filteredTokens stop tokens).count p.1 ∧
      pyIsAlnum p.1 = true ∧ stop.contains p.1 = false) ∧
    (∀ c, ∃ t,
      ((dedupAux [] (filteredTokens stop tokens)).map
          (fun w => (w, (filteredTokens stop tokens).count w))).filter (fun p => p.2 == c)
        = (frequentWords stop tokens).filter (fun p => p.2 == c) ++ t) ∧
    (∀ jd : String,
      (analyze_job_description stop jd).frequent_words = frequentWords stop (tokenize jd)) := by
  refine ⟨?_, ?_, ?_, ?_, fun jd => rfl⟩
  · exact List.length_take_le 15 _
  · exact (sortDescBy_pairwise (fun p : String × Nat => p.2) _).sublist
      (List.take_sublist 15 _)
  · intro p hp
    have hp1 : p ∈ sortDescBy (fun p : String × Nat => p.2)
        ((dedupAux [] (filteredTokens stop tokens)).map
          (fun w => (w, (filteredTokens stop tokens).count w))) :=
      List.mem_of_mem_take hp
    have hp2 := (mem_sortDescBy _).mp hp1
    rcases List.mem_map.mp hp2 with ⟨w, hw, rfl⟩
    have hwf : w ∈ filteredTokens stop tokens := mem_dedupAux _ _ hw
    have hcond := (List.mem_filter.mp hwf).2
    simp only [Bool.and_eq_true, Bool.not_eq_true'] at hcond
    exact ⟨rfl, hcond.1, hcond.2⟩
  · intro c
    refine ⟨((sortDescBy (fun p : String × Nat => p.2)
        ((dedupAux [] (filteredTokens stop tokens)).map
          (fun w => (w, (filteredTokens stop tokens).count w)))).drop 15).filter
            (fun p => p.2 == c), ?_⟩
    exact (sortDescBy_filter (fun p : String × Nat => p.2) _ c).symm.trans
      (filter_take_drop _ 15 _)

/-- Witness for C6: the membership facts at a concrete analyzer run
("go go tool", stopword list ["the"]); the token "go" occurs twice. -/
theorem c6_frequent_words_witness :
    ("go", 2).2 = (filteredTokens ["the"] (tokenize "go go tool")).count ("go", 2).1 ∧
    pyIsAlnum ("go", 2).1 = true ∧ (["the"] : List String).contains ("go", 2).1 = false :=
  (c6_frequent_words ["the"] (tokenize "go go tool")).2.2.1 ("go", 2) (by decide)

/-- Fixture: five work highlights, of which exactly two mention "python". -/
def fiveHighlights : List String :=
  ["Led a team of five", "Built python services", "Wrote weekly reports",
   "Deployed python jobs", "Organized events"]

/-- Fixture: a work entry carrying `fiveHighlights`. -/
def wFive : WorkItem :=
  { company := none, position := none, summary := none,
    highlights := some fiveHighlights, keywords := none, relevance_score := none }

/-- Claim C8: when a work entry has more highlights than the tier limit,
`optimize_for_page_constraints` keeps exactly `limit` highlights — the
top-`limit` of the stable descending sort by the number of required skills
contained case-insensitively in the highlight: the kept list is sorted by
descending score, every dropped highlight scores no more than every kept
one, and for each score value the kept entries are a leading segment of the
original order. -/
theorem c8_highlight_pruning (req : List String) (limit : Nat) (w : WorkItem)
    (hs : List String) (hhl : w.highlights = some hs) (hlen : hs.length > limit) :
    ∃ res : List String,
      pruneHighlights req limit w = { w with highlights := some res } ∧
      res = (sortDescBy (hlScore req) hs).take limit ∧
      res.length = limit ∧
      res.Pairwise (fun a b => hlScore req b ≤ hlScore req a) ∧
      (∃ dropped : List String, List.Perm (res ++ dropped) hs ∧
        ∀ x ∈ res, ∀ y ∈ dropped, hlScore req y ≤ hlScore req x) ∧
      (∀ c, ∃ t, hs.filter (fun h => hlScore req h == c)
            = res.filter (fun h => hlScore req h == c) ++ t) := by
  refine ⟨(sortDescBy (hlScore req) hs).take limit, ?_, rfl, ?_, ?_, ?_, ?_⟩
  · simp only [pruneHighlights, hhl, if_pos hlen]
  · have hsl : (sortDescBy (hlScore req) hs).length = hs.length :=
      (sortDescBy_perm _ hs).length_eq
    rw [List.length_take, hsl]
    omega
  · exact (sortDescBy_pairwise (hlScore req) hs).sublist (List.take_sublist limit _)
  · refine ⟨(sortDescBy (hlScore req) hs).drop limit, ?_, ?_⟩
    · rw [List.take_append_drop]
      exact sortDescBy_perm _ hs
    · have hp := sortDescBy_pairwise (hlScore req) hs
      rw [← List.take_append_drop limit (sortDescBy (hlScore req) hs)] at hp
      exact fun x hx y hy => (List.pairwise_append.mp hp).2.2 x hx y hy
  · intro c
    refine ⟨((sortDescBy (hlScore req) hs).drop limit).filter
      (fun h => hlScore req h == c), ?_⟩
    exact (sortDescBy_filter (hlScore req) hs c).symm.trans
      (filter_take_drop _ limit _)

/-- Witness for C8: the claim's own scenario — five highlights, exactly two
containing the required skill "python", aggressive tier limit 2 — retains
precisely those two highlights. -/
theorem c8_highlight_pruning_witness :
    (∃ res : List String,
      pruneHighlights ["python"] 2 wFive = { wFive with highlights := some res } ∧
      res = (sortDescBy (hlScore ["python"]) fiveHighlights).take 2 ∧
      res.length = 2 ∧
      res.Pairwise (fun a b => hlScore ["python"] b ≤ hlScore ["python"] a) ∧
      (∃ dropped : List String, List.Perm (res ++ dropped) fiveHighlights ∧
        ∀ x ∈ res, ∀ y ∈ dropped, hlScore ["python"] y ≤ hlScore ["python"] x) ∧
      (∀ c, ∃ t, fiveHighlights.filter (fun h => hlScore ["python"] h == c)
            = res.filter (fun h => hlScore ["python"] h == c) ++ t)) ∧
    (pruneHighlights ["python"] 2 wFive).highlights
      = some ["Built python services", "Deployed python jobs"] :=
  ⟨c8_highlight_pruning ["python"] 2 wFive fiveHighlights rfl (by decide), by decide⟩

/-- No work entry of the (optional) list carries the transient
`relevance_score` key. -/
def noScoresW (o : Option (List WorkItem)) : Prop :=
  ∀ l, o = some l → ∀ w ∈ l, w.relevance_score = none

/-- No project of the (optional) list carries the transient
`relevance_score` key. -/
def noScoresP (o : Option (List Project)) : Prop :=
  ∀ l, o = some l → ∀ p ∈ l, p.relevance_score = none

/-- No skill entry of the (optional) list carries the transient
`relevance_score` key. -/
def noScoresS (o : Option (List SkillEntry)) : Prop :=
  ∀ l, o = some l → ∀ sk ∈ l, sk.relevance_score = none

/-- No project of the (optional) list carries the transient `_relevance`
key used during project pruning. -/
def noTmpP (o : Option (List Project)) : Prop :=
  ∀ l, o = some l → ∀ p ∈ l, p._relevance = none

theorem mem_rankWork {req : List String} {l : List WorkItem} {w : WorkItem}
    (h : w ∈ rankWork req l) : ∃ q ∈ l, w = { q with relevance_score := none } := by
  unfold rankWork at h
  rcases List.mem_map.mp h with ⟨x, hx, rfl⟩
  rcases List.mem_map.mp ((mem_sortDescBy _).mp hx) with ⟨q, hq, rfl⟩
  exact ⟨q, hq, rfl⟩

theorem mem_rankProjects {req : List String} {l : List Project} {p : Project}
    (h : p ∈ rankProjects req l) : ∃ q ∈ l, p = { q with relevance_score := none } := by
  unfold rankProjects at h
  rcases List.mem_map.mp h with ⟨x, hx, rfl⟩
  rcases List.mem_map.mp ((mem_sortDescBy _).mp hx) with ⟨q, hq, rfl⟩
  exact ⟨q, hq, rfl⟩

theorem mem_rankSkills {req : List String} {l : List SkillEntry} {sk : SkillEntry}
    (h : sk ∈ rankSkills req l) : ∃ q ∈ l, sk = { q with relevance_score := none } := by
  unfold rankSkills at h
  rcases List.mem_map.mp h with ⟨x, hx, rfl⟩
  rcases List.mem_map.mp ((mem_sortDescBy _).mp hx) with ⟨q, hq, rfl⟩
  exact ⟨q, hq, rfl⟩

theorem mem_pruneProjects {req : List String} {lim : Nat} {ps : List Project}
    {p : Project} (h : p ∈ pruneProjects req lim ps) :
    p ∈ ps ∨ ∃ q ∈ ps, p = { q with _relevance := none } := by
  unfold pruneProjects at h
  split at h
  · rcases List.mem_map.mp h with ⟨x, hx, rfl⟩
    have hx1 := (mem_sortDescBy _).mp (List.mem_of_mem_take hx)
    rcases List.mem_map.mp hx1 with ⟨q, hq, rfl⟩
    exact Or.inr ⟨q, hq, rfl⟩
  · exact Or.inl h

theorem pruneHighlights_score (req : List String) (lim : Nat) (w : WorkItem) :
    (pruneHighlights req lim w).relevance_score = w.relevance_score := by
  unfold pruneHighlights
  split
  · split <;> rfl
  · rfl

/-- Claim C9: the documents returned by `generate_tailored_resume` and by
the subsequent `optimize_for_page_constraints` carry no transient scoring
field: no work, project or skill entry of either output has the
`relevance_score` key set, and — provided the caller's document does not
itself arrive with the optimizer's internal `_relevance` key — no returned
project carries `_relevance` either. -/
theorem c9_no_transient_fields (stop : List String) (r : Resume) (jd : String) :
    noScoresW (generate_tailored_resume stop r jd).1.work ∧
    noScoresP (generate_tailored_resume stop r jd).1.projects ∧
    noScoresS (generate_tailored_resume stop r jd).1.skills ∧
    noScoresW (optimize_for_page_constraints (generate_tailored_resume stop r jd).1).1.work ∧
    noScoresP (optimize_for_page_constraints (generate_tailored_resume stop r jd).1).1.projects ∧
    noScoresS (optimize_for_page_constraints (generate_tailored_resume stop r jd).1).1.skills ∧
    (noTmpP r.projects →
      noTmpP (generate_tailored_resume stop r jd).1.projects ∧
      noTmpP (optimize_for_page_constraints (generate_tailored_resume stop r jd).1).1.projects) := by
  have hreq : (generate_tailored_resume stop r jd).1.work
      = r.work.map (rankWork (analyze_job_description stop jd).skills) := rfl
  have hproj : (generate_tailored_resume stop r jd).1.projects
      = r.projects.map (rankProjects (analyze_job_description stop jd).skills) := rfl
  have hskl : (generate_tailored_resume stop r jd).1.skills
      = r.skills.map (rankSkills (analyze_job_description stop jd).skills) := rfl
  have hW : noScoresW (generate_tailored_resume stop r jd).1.work := by
    intro l hl w hw
    rw [hreq] at hl
    cases hr : r.work with
    | none => rw [hr] at hl; cases hl
    | some l0 =>
      rw [hr] at hl
      cases hl
      rcases mem_rankWork hw with ⟨q, hq, rfl⟩
      rfl
  have hP : noScoresP (generate_tailored_resume stop r jd).1.projects := by
    intro l hl p hp
    rw [hproj] at hl
    cases hr : r.projects with
    | none => rw [hr] at hl; cases hl
    | some l0 =>
      rw [hr] at hl
      cases hl
      rcases mem_rankProjects hp with ⟨q, hq, rfl⟩
      rfl
  have hS : noScoresS (generate_tailored_resume stop r jd).1.skills := by
    intro l hl sk hsk
    rw [hskl] at hl
    cases hr : r.skills with
    | none => rw [hr] at hl; cases hl
    | some l0 =>
      rw [hr] at hl
      cases hl
      rcases mem_rankSkills hsk with ⟨q, hq, rfl⟩
      rfl
  have hoptW : ∀ r2 : Resume, noScoresW r2.work →
      noScoresW (optimize_for_page_constraints r2).1.work := by
    intro r2 h2 l hl w hw
    have : (optimize_for_page_constraints r2).1.work
        = r2.work.map (List.map (pruneHighlights
            ((r2.job_analysis.map JobAnalysis.skills).getD [])
            (tierLimits (contentSize r2)).2.1)) := rfl
    rw [this] at hl
    cases hr : r2.work with
    | none => rw [hr] at hl; cases hl
    | some l0 =>
      rw [hr] at hl
      cases hl
      rcases List.mem_map.mp hw with ⟨q, hq, rfl⟩
      rw [pruneHighlights_score]
      exact h2 l0 hr q hq
  have hoptP : ∀ r2 : Resume, noScoresP r2.projects →
      noScoresP (optimize_for_page_constraints r2).1.projects := by
    intro r2 h2 l hl p hp
    have : (optimize_for_page_constraints r2).1.projects
        = r2.projects.map (pruneProjects
            ((r2.job_analysis.map JobAnalysis.skills).getD [])
            (tierLimits (contentSize r2)).2.2) := rfl
    rw [this] at hl
    cases hr : r2.projects with
    | none => rw [hr] at hl; cases hl
    | some l0 =>
      rw [hr] at hl
      cases hl
      rcases mem_pruneProjects hp with hmem | ⟨q, hq, rfl⟩
      · exact h2 l0 hr p hmem
      · exact h2 l0 hr q hq
  have hoptS : ∀ r2 : Resume, noScoresS r2.skills →
      noScoresS (optimize_for_page_constraints r2).1.skills := by
    intro r2 h2
    have : (optimize_for_page_constraints r2).1.skills = r2.skills := rfl
    rw [this]
    exact h2
  have hoptT : ∀ r2 : Resume, noTmpP r2.projects →
      noTmpP (optimize_for_page_constraints r2).1.projects := by
    intro r2 h2 l hl p hp
    have : (optimize_for_page_constraints r2).1.projects
        = r2.projects.map (pruneProjects
            ((r2.job_analysis.map JobAnalysis.skills).getD [])
            (tierLimits (contentSize r2)).2.2) := rfl
    rw [this] at hl
    cases hr : r2.projects with
    | none => rw [hr] at hl; cases hl
    | some l0 =>
      rw [hr] at hl
      cases hl
      rcases mem_pruneProjects hp with hmem | ⟨q, hq, rfl⟩
      · exact h2 l0 hr p hmem
      · rfl
  have hT : noTmpP r.projects → noTmpP (generate_tailored_resume stop r jd).1.projects := by
    intro h2 l hl p hp
    rw [hproj] at hl
    cases hr : r.projects with
    | none => rw [hr] at hl; cases hl
    | some l0 =>
      rw [hr] at hl
      cases hl
      rcases mem_rankProjects hp with ⟨q, hq, rfl⟩
      exact h2 l0 hr q hq
  exact ⟨hW, hP, hS, hoptW _ hW, hoptP _ hP, hoptS _ hS,
    fun h0 => ⟨hT h0, hoptT _ (hT h0)⟩⟩

/-- Fixture: a clean demo project. -/
def demoProject : Project :=
  { name := some "demo", description := none, summary := none,
    highlights := none, keywords := some ["python"], url := none,
    relevance_score := none, _relevance := none }

/-- Fixture: a resume holding one clean project. -/
def oneProjectResume : Resume :=
  { basics := none, work := none, projects := some [demoProject],
    skills := none, job_analysis := none }

/-- Witness for C9: the `_relevance` hypothesis discharged on a concrete
clean one-project resume. -/
theorem c9_no_transient_fields_witness :
    noTmpP (generate_tailored_resume [] oneProjectResume "python").1.projects ∧
    noTmpP (optimize_for_page_constraints
      (generate_tailored_resume [] oneProjectResume "python").1).1.projects :=
  (c9_no_transient_fields [] oneProjectResume "python").2.2.2.2.2.2
    (by
      intro l hl
      have hl' : some [demoProject] = some l := hl
      cases hl'
      decide)

theorem all_takeWhile (p : α → Bool) (l : List α) : (l.takeWhile p).all p = true := by
  induction l with
  | nil => rfl
  | cons c t ih =>
    by_cases hc : p c
    · simp [List.takeWhile_cons, hc, ih]
    · simp [List.takeWhile_cons, hc]

theorem matchExpAt_group {s : List Char} {g : String} {r : List Char}
    (h : matchExpAt s = some (g, r)) :
    g = String.mk (s.takeWhile Char.isDigit) ∧
    (s.takeWhile Char.isDigit).isEmpty = false := by
  simp only [matchExpAt] at h
  split at h
  · simp at h
  · next hne =>
    have hne' : (s.takeWhile Char.isDigit).isEmpty = false := by simpa using hne
    refine ⟨?_, hne'⟩
    split at h
    · simp at h
    · split at h
      · simp at h
      · next r4 heq =>
        split at h
        · simp at h
        · split at h
          · simp at h
          · simp only [Option.some.injEq, Prod.mk.injEq] at h
            exact h.1.symm

theorem expScanAux_digits :
    ∀ (l : List Char) (n : Nat) (g : String), g ∈ expScanAux n l →
      g ≠ "" ∧ g.data.all Char.isDigit = true := by
  intro l
  induction l with
  | nil => intro n g hg; simp [expScanAux] at hg
  | cons c rest ih =>
    intro n g hg
    cases n with
    | succ m => exact ih m g (by simpa [expScanAux] using hg)
    | zero =>
      simp only [expScanAux] at hg
      cases hm : matchExpAt (c :: rest) with
      | none =>
        rw [hm] at hg
        exact ih 0 g hg
      | some pr =>
        obtain ⟨g0, r⟩ := pr
        rw [hm] at hg
        rcases List.mem_cons.mp hg with rfl | hg'
        · obtain ⟨hgd, hne⟩ := matchExpAt_group hm
          subst hgd
          constructor
          · intro he
            have hdata : (c :: rest).takeWhile Char.isDigit = [] := congrArg String.data he
            rw [hdata] at hne
            simp at hne
          · exact all_takeWhile Char.isDigit (c :: rest)
        · exact ih _ g hg'

/-- Claim C2 as amended: experience extraction applies
`(\d+)[\+]?\s+years?\s+(?:of\s+)?experience` to the RAW job text with no
`re.IGNORECASE` flag, so matching is case-sensitive: lower-case occurrences
(including the `+` and `of` variants) are captured with every digit group
in order of appearance, but capitalized variants such as
"5 Years Experience" are not matched; every captured group is a non-empty
string of digits, and `analyze_job_description` returns exactly this list. -/
theorem c2_exp_extraction_case_sensitive :
    (∀ (s : String) (g : String), g ∈ expFindAll s →
      g ≠ "" ∧ g.data.all Char.isDigit = true) ∧
    expFindAll "5 years experience" = ["5"] ∧
    expFindAll "5 Years Experience" = [] ∧
    expFindAll "Requires 3 years experience; plus 10+ years of experience preferred"
      = ["3", "10"] ∧
    expFindAll "1 year of experience" = ["1"] ∧
    (∀ (stop : List String) (jd : String),
      (analyze_job_description stop jd).experience = expFindAll jd) := by
  refine ⟨fun s g hg => expScanAux_digits s.data 0 g hg, by decide, by decide,
    by decide, by decide, fun stop jd => rfl⟩

/-- Witness for C2 (amended): the digit-group property instantiated on a
concrete capture. -/
theorem c2_exp_extraction_case_sensitive_witness :
    ("10" : String) ≠ "" ∧ "10".data.all Char.isDigit = true :=
  c2_exp_extraction_case_sensitive.1
    "Requires 3 years experience; plus 10+ years of experience preferred" "10"
    (by decide)
